import Mathlib

/-!
Verification of the `bialas1993/log` leveled logging library.

The definitions below are a shallow embedding of the Go sources:
`logger.go` (the five-level revision: `Level`, `logger`, `LogFields.Add`,
`logger.output`, `logger.clear`, `logger.With`, `logger.Fatal`),
`formatter.go` / `src/unnamed/part_003` (`StdFormatter`,
`LogFields.MarshalJSON`), `logger_syslog.go` (`setup`), and the six-level
revision in `example_test.go` (`LevelPanic`, `logger.Panic`, context
fields).  Go maps of type `LogFields` (`map[string]interface{}`) are
modelled as association lists with one entry per key; map values
(`interface{}`) are modelled by the closed universe `GoValue` of the value
shapes the library's tests exercise.
-/

namespace LogSpec

/-- A Go `interface{}` value stored in a `LogFields` map.  `vStringer`
models a value whose dynamic type implements `fmt.Stringer`; the carried
string is what its `String()` method returns. -/
inductive GoValue where
  | vBool : Bool → GoValue
  | vInt : Int → GoValue
  | vStr : String → GoValue
  | vStringer : String → GoValue
deriving DecidableEq, Repr

/-- `type LogFields map[string]interface{}`, as an association list with
at most one entry per key (Go map keys are unique). -/
abbrev LogFields := List (String × GoValue)

/-- Map lookup `m[k]` returning `(value, ok)`. -/
def lookupField (m : LogFields) (k : String) : Option GoValue :=
  match m with
  | [] => none
  | p :: rest => if p.1 = k then some p.2 else lookupField rest k

/-- Go map assignment `m[k] = v`: overwrite the entry when the key is
present, otherwise add a new entry. -/
def insertField (m : LogFields) (k : String) (v : GoValue) : LogFields :=
  if m.any (fun p => p.1 == k) then
    m.map (fun p => if p.1 = k then (k, v) else p)
  else m ++ [(k, v)]

/-- Go `delete(m, k)`. -/
def deleteKey (m : LogFields) (k : String) : LogFields :=
  m.filter (fun p => p.1 ≠ k)

/-- The copy loops in `LogFields.Add`: `for field, value := range src {
dst[field] = value }`. -/
def mergeInto (dst : LogFields) (src : LogFields) : LogFields :=
  src.foldl (fun acc p => insertField acc p.1 p.2) dst

/-- `func (l LogFields) Add(newFields LogFields) LogFields`
(logger.go:218-235): empty-operand short circuits, else a fresh map is
filled from `l` and then from `newFields`. -/
def LogFields.Add (l : LogFields) (newFields : LogFields) : LogFields :=
  if l.length = 0 then newFields
  else if newFields.length = 0 then l
  else mergeInto (mergeInto [] l) newFields

/-- Output levels of logger.go:17-24 (`Level uint8`, `iota` so
Fatal=0 … Debug=4; lower numeric value = higher severity). -/
inductive Level where
  | fatal
  | error
  | waring
  | info
  | debug
deriving DecidableEq, Repr

/-- The numeric value the `iota` enumeration gives each level. -/
def Level.toNat : Level → Nat
  | .fatal => 0
  | .error => 1
  | .waring => 2
  | .info => 3
  | .debug => 4

/-- `levelMap` (logger.go:51-57). -/
def levelMap : Level → String
  | .fatal => "fatal"
  | .error => "error"
  | .waring => "warning"
  | .info => "info"
  | .debug => "debug"

/-- Lexicographic `<=` on strings as character sequences (Go compares
strings byte-wise; the field keys involved are plain ASCII, where the two
orders agree). -/
def charListLe : List Char → List Char → Bool
  | [], _ => true
  | _ :: _, [] => false
  | a :: as, b :: bs =>
    if a.toNat < b.toNat then true
    else if b.toNat < a.toNat then false
    else charListLe as bs

/-- Lexicographic `<=` on strings. -/
def strLe (a b : String) : Bool :=
  charListLe a.data b.data

/-- `sort.Strings` on the collected keys, as an insertion sort by the
lexicographic order on strings. -/
def insertSorted (s : String) : List String → List String
  | [] => [s]
  | t :: rest => if strLe s t then s :: t :: rest else t :: insertSorted s rest

/-- Ascending lexicographic sort of a key list (`sort.Strings`). -/
def sortStrings : List String → List String
  | [] => []
  | s :: rest => insertSorted s (sortStrings rest)

/-- `fmt.Sprintf("%v", value)` after the `fmt.Stringer` check in
`StdFormatter.formatFields` (formatter.go:47-51): a stringer renders via
its `String()` method, otherwise the generic `%v` verb is used. -/
def renderValue : GoValue → String
  | .vStringer s => s
  | .vBool b => if b then "true" else "false"
  | .vInt n => toString n
  | .vStr s => s

/-- The quoting step of `StdFormatter.formatFields` (formatter.go:53-55):
wrap in double quotes when the rendered value contains the string `" "`,
i.e. one of its characters is a space. -/
def quoteIfSpace (s : String) : String :=
  if s.data.contains ' ' then "\"" ++ s ++ "\"" else s

/-- `StdFormatter.formatFields` (formatter.go:31-61): sort the keys, then
append `key=value ` for each key in sorted order. -/
def StdFormatter.formatFields (fields : LogFields) : String :=
  let keys := sortStrings (fields.map Prod.fst)
  keys.foldl
    (fun acc key =>
      acc ++ key ++ "=" ++
        quoteIfSpace (renderValue ((lookupField fields key).getD (.vStr ""))) ++ " ")
    ""

/-- `StdFormatter.Output` (formatter.go:79-84): rendered fields followed
by the raw message; `flags` and `lvl` are received but unused. -/
def StdFormatter.Output (flags : Nat) (lvl : String) (fields : LogFields)
    (msg : String) : String :=
  StdFormatter.formatFields fields ++ msg

/-!
Spec-side renderings of the plain formatter, used only to compare the
code against the wording of the specification (claim C4).
-/

/-- Concatenation of a list of strings. -/
def joinAll : List String → String
  | [] => ""
  | s :: rest => s ++ joinAll rest

/-- Written from the spec's words: wrap a rendered value in double quotes
when it contains any whitespace character. -/
def quoteIfWhitespace (s : String) : String :=
  if s.data.any Char.isWhitespace then "\"" ++ s ++ "\"" else s

/-- Written from the spec's words (claim C4 as stated): sorted
`key=value ` pairs, quoting values that contain whitespace, then the raw
message. -/
def specStdOutputWhitespace (flags : Nat) (lvl : String) (fields : LogFields)
    (msg : String) : String :=
  joinAll ((sortStrings (fields.map Prod.fst)).map
    (fun key =>
      key ++ "=" ++
        quoteIfWhitespace (renderValue ((lookupField fields key).getD (.vStr ""))) ++ " "))
    ++ msg

/-- The amended spec rendering: identical to `specStdOutputWhitespace`
except that a value is quoted exactly when it contains a space
character. -/
def specStdOutputSpace (flags : Nat) (lvl : String) (fields : LogFields)
    (msg : String) : String :=
  joinAll ((sortStrings (fields.map Prod.fst)).map
    (fun key =>
      key ++ "=" ++
        quoteIfSpace (renderValue ((lookupField fields key).getD (.vStr ""))) ++ " "))
    ++ msg

/-!
The logger of logger.go (five-level revision).  The per-level
`*log.Logger` channels only receive the already-formatted text, so an
emit is modelled by the text it writes (`Option String`: `none` when the
severity gate suppressed the write).  The pluggable formatter is the
`Formatter.Output` capability, a function of (flags, level name, fields,
message).
-/

structure Logger where
  formatter : Nat → String → LogFields → String → String
  level : Level
  flags : Nat
  fields : LogFields

/-- `logger.clear` (logger.go:237-241): reset the transient field set. -/
def logger.clear (l : Logger) : Logger :=
  { l with fields := [] }

/-- `logger.output` (logger.go:243-262): `defer l.clear()`; the line is
written iff `l.level >= s` (both sides the `uint8` numeric of the level).
The `switch` covers every `Level` constructor, each writing `txt` to its
channel.  Result: the post-call logger and the written line, if any. -/
def logger.output (l : Logger) (s : Level) (txt : String) :
    Logger × Option String :=
  (logger.clear l, if s.toNat ≤ l.level.toNat then some txt else none)

/-- `logger.With` (logger.go:381-388): merge fields into the transient
set. -/
def logger.With (l : Logger) (fields : LogFields) : Logger :=
  { l with fields := LogFields.Add l.fields fields }

/-- `logger.SetLevel` (logger.go:364-366). -/
def logger.SetLevel (l : Logger) (lvl : Level) : Logger :=
  { l with level := lvl }

/-- The shared body of `logger.Debug/Info/Warning/Error`
(logger.go:301-361), each of which is this definition applied at its
fixed severity: format with the logger's formatter, flags, level name and
transient fields, then hand the text to `logger.output`. -/
def logger.emit (l : Logger) (s : Level) (msg : String) :
    Logger × Option String :=
  logger.output l s (l.formatter l.flags (levelMap s) l.fields msg)

/-- `logger.Debug` (logger.go:301-303). -/
def logger.Debug (l : Logger) (msg : String) : Logger × Option String :=
  logger.emit l .debug msg

/-- `logger.Info` (logger.go:313-315). -/
def logger.Info (l : Logger) (msg : String) : Logger × Option String :=
  logger.emit l .info msg

/-- `logger.Warning` (logger.go:325-327). -/
def logger.Warning (l : Logger) (msg : String) : Logger × Option String :=
  logger.emit l .waring msg

/-- `logger.Error` (logger.go:353-355). -/
def logger.Error (l : Logger) (msg : String) : Logger × Option String :=
  logger.emit l .error msg

/-!
Termination traces.  `logger.Fatal` and the six-level revision's
`logger.Panic` perform externally visible actions in sequence; an emit is
modelled as the ordered list of those actions.
-/

/-- An externally visible action of a terminal emit. -/
inductive Event where
  | wrote : String → Event
  | closedResources : Event
  | exited : Nat → Event
  | panicked : String → Event
deriving DecidableEq, Repr

/-- `logger.Fatal` (logger.go:337-341): format, `l.output(LevelFatal, …)`
(which writes iff the gate passes), then `l.Close()`, then
`os.Exit(1)`. -/
def logger.Fatal (l : Logger) (msg : String) : List Event :=
  let txt := l.formatter l.flags (levelMap .fatal) l.fields msg
  (match (logger.output l .fatal txt).2 with
   | some t => [Event.wrote t]
   | none => []) ++ [Event.closedResources, Event.exited 1]

/-!
The six-level revision (example_test.go): `Level` gains `LevelPanic = 1`
between Fatal and Error, and the logger carries an optional bound context
field set that `bindContextFields` re-merges before every emit.
-/

/-- Output levels of the six-level revision (example_test.go:19-27):
Fatal=0, Panic=1, Error=2, Waring=3, Info=4, Debug=5. -/
inductive LevelP where
  | fatal
  | panic
  | error
  | waring
  | info
  | debug
deriving DecidableEq, Repr

/-- Numeric value of a six-level-revision level. -/
def LevelP.toNat : LevelP → Nat
  | .fatal => 0
  | .panic => 1
  | .error => 2
  | .waring => 3
  | .info => 4
  | .debug => 5

/-- `levelMap` of the six-level revision (example_test.go:56-63). -/
def levelMapP : LevelP → String
  | .fatal => "fatal"
  | .panic => "panic"
  | .error => "error"
  | .waring => "warning"
  | .info => "info"
  | .debug => "debug"

/-- The six-level revision's logger (example_test.go:70-84); `ctxFields`
models the `context_fields` value stored in `l.ctx` (none when no context
was bound). -/
structure LoggerP where
  formatter : Nat → String → LogFields → String → String
  level : LevelP
  flags : Nat
  fields : LogFields
  ctxFields : Option LogFields

/-- `logger.With` of the six-level revision (example_test.go:537-541). -/
def loggerP.With (l : LoggerP) (fields : LogFields) : LoggerP :=
  { l with fields := LogFields.Add l.fields fields }

/-- `logger.bindContextFields` (example_test.go:352-361): when a context
field set is bound, merge it into the transient fields. -/
def loggerP.bindContextFields (l : LoggerP) : LoggerP :=
  match l.ctxFields with
  | some v => loggerP.With l v
  | none => l

/-- `logger.output` of the six-level revision (example_test.go:363-384):
same gate `l.level >= s` and deferred clear as the five-level one. -/
def loggerP.output (l : LoggerP) (s : LevelP) (txt : String) :
    LoggerP × Option String :=
  ({ l with fields := [] }, if s.toNat ≤ l.level.toNat then some txt else none)

/-- `logger.Panic` (example_test.go:500-506): bind context fields, format,
`l.output(LevelPanic, …)` (which writes iff the gate passes), then
`l.Close()`, then `panic(msg)` with the rendered (unformatted) message. -/
def loggerP.Panic (l : LoggerP) (msg : String) : List Event :=
  let l2 := loggerP.bindContextFields l
  let txt := l2.formatter l2.flags (levelMapP .panic) l2.fields msg
  (match (loggerP.output l2 .panic txt).2 with
   | some t => [Event.wrote t]
   | none => []) ++ [Event.closedResources, Event.panicked msg]

/-!
Sink fan-out construction: the destination-list building of `new`
(logger.go:108-164) together with `setup` (logger_syslog.go:9-32).
-/

/-- An `io.Writer` destination a logger channel can fan out to. -/
inductive Writer where
  | file : Nat → Writer
  | sysDebug : String → Writer
  | sysInfo : String → Writer
  | sysWarning : String → Writer
  | sysError : String → Writer
  | stdout
  | stderr
deriving DecidableEq, Repr

/-- `setup` (logger_syslog.go): acquire one syslog channel per level
(LOG_DEBUG, LOG_NOTICE, LOG_WARNING, LOG_ERR for source `src`); on any
acquisition failure every returned writer is nil and the error is set.
The single `ok` parameter models whether `syslog.New` succeeds. -/
def setup (ok : Bool) (src : String) :
    Option Writer × Option Writer × Option Writer × Option Writer × Bool :=
  if ok then
    (some (.sysDebug src), some (.sysInfo src), some (.sysWarning src),
      some (.sysError src), false)
  else (none, none, none, none, true)

/-- The per-level destination lists `new` assembles.  `fatalLog` is built
from the same `eLogs` list as `errorLog` (logger.go:163-164), so it has no
list of its own here. -/
structure Sinks where
  dLogs : List Writer
  iLogs : List Writer
  wLogs : List Writer
  eLogs : List Writer
deriving DecidableEq, Repr

/-- The destination-list construction inside `new` (logger.go:108-152):
start each level's list empty; when `systemLog` is set call `setup`; put
the explicit `logFile` first in every list; then append the acquired
system-log writer — note logger.go:124-126 appends `il` (the Info
channel) to `dLogs` under the `dl != nil` check; finally append the
platform default stream (stdout for Debug/Info/Warning, stderr for
Error and the shared Fatal list) last. -/
def buildSinks (systemLog : Bool) (ok : Bool) (name : String)
    (logFile : Option Writer) : Sinks :=
  let acquired := if systemLog then setup ok name else (none, none, none, none, false)
  let dl := acquired.1
  let il := acquired.2.1
  let wl := acquired.2.2.1
  let el := acquired.2.2.2.1
  let base := match logFile with | some w => [w] | none => []
  let dLogs := if dl.isSome then base ++ il.toList else base
  let iLogs := if il.isSome then base ++ il.toList else base
  let wLogs := if wl.isSome then base ++ wl.toList else base
  let eLogs := if el.isSome then base ++ el.toList else base
  ⟨dLogs ++ [.stdout], iLogs ++ [.stdout], wLogs ++ [.stdout], eLogs ++ [.stderr]⟩

/-!
`LogFields.MarshalJSON` (src/unnamed/part_003:164-207, identical copy at
example_test.go:301-344): pull the reserved keys `time`, `level`, `msg`
out of the receiver map (deleting them from it), then append the
remaining entries, then serialize the collected pairs in order.
-/

/-- `json.Marshal` of a string key or string value, modelled for strings
without characters that JSON escapes. -/
def jsonString (s : String) : String :=
  "\"" ++ s ++ "\""

/-- `json.Marshal` of a field value.  A `vStringer` stands for a value
whose marshalled form we model as its rendered string. -/
def jsonValue : GoValue → String
  | .vBool b => if b then "true" else "false"
  | .vInt n => toString n
  | .vStr s => jsonString s
  | .vStringer s => jsonString s

/-- One reserved-key extraction step of `MarshalJSON`: `if v, ok :=
l[k]; ok { data = append(data, {k, v}); delete(l, k) }`. -/
def extractStep (acc : List (String × GoValue) × LogFields) (k : String) :
    List (String × GoValue) × LogFields :=
  match lookupField acc.2 k with
  | some v => (acc.1 ++ [(k, v)], deleteKey acc.2 k)
  | none => acc

/-- The entry list `data` built by `MarshalJSON` and the receiver map
after its reserved-key deletions: `time`, `level`, `msg` extracted in
that order, then the remaining entries of the (mutated) map. -/
def marshalData (l : LogFields) : List (String × GoValue) × LogFields :=
  let acc := extractStep (extractStep (extractStep ([], l) "time") "level") "msg"
  (acc.1 ++ acc.2, acc.2)

/-- The ordered key sequence of the serialized JSON object. -/
def marshalKeys (l : LogFields) : List String :=
  (marshalData l).1.map Prod.fst

/-- The three keys `MarshalJSON` reserves. -/
def isReservedKey (k : String) : Bool :=
  k == "time" || k == "level" || k == "msg"

/-- `LogFields.MarshalJSON`: the serialized object and the receiver map
as the call leaves it (the method mutates it via `delete`). -/
def LogFields.MarshalJSON (l : LogFields) : String × LogFields :=
  let acc := marshalData l
  ("\x7b" ++
     String.intercalate ","
       (acc.1.map (fun d => jsonString d.1 ++ ":" ++ jsonValue d.2)) ++
     "\x7d",
   acc.2)

/-!
A small heap semantics for `LogFields.Add`, to state which maps the call
reads, which it leaves untouched, and that its result map is freshly
allocated (claim C10).  The heap is a list of maps; a map value in Go is
a reference, modelled as an index into the heap; `make` is modelled as
appending a new map to the heap.
-/

/-- `LogFields.Add` over an explicit heap: receiver at index `i`,
argument at index `j`.  The empty-operand branches return an existing
reference; the merge branch allocates `resultFields` fresh, fills it from
both operands, and returns its new index.  No existing heap cell is ever
written. -/
def heapAdd (heap : List LogFields) (i j : Nat) : List LogFields × Nat :=
  let l := heap.getD i []
  let nf := heap.getD j []
  if l.length = 0 then (heap, j)
  else if nf.length = 0 then (heap, i)
  else (heap ++ [mergeInto (mergeInto [] l) nf], heap.length)

/-!
Helper lemmas.
-/

theorem foldl_pairs_eq_joinAll (Q : String → String) (keys : List String)
    (acc : String) :
    keys.foldl (fun a k => a ++ k ++ "=" ++ Q k ++ " ") acc
      = acc ++ joinAll (keys.map (fun k => k ++ "=" ++ Q k ++ " ")) := by
  induction keys generalizing acc with
  | nil => simp [joinAll]
  | cons k rest ih =>
    rw [List.foldl_cons, ih, List.map_cons]
    simp only [joinAll, String.append_assoc]

theorem lookupField_map_self (k : String) (v : GoValue) :
    ∀ m : LogFields, m.any (fun q => q.1 == k) = true →
      lookupField (m.map (fun q => if q.1 = k then (k, v) else q)) k = some v := by
  intro m
  induction m with
  | nil => intro h; simp at h
  | cons q tail ih =>
    intro h
    by_cases hq : q.1 = k
    · rw [List.map_cons, if_pos hq]
      simp [lookupField]
    · rw [List.map_cons, if_neg hq]
      simp only [lookupField, if_neg hq]
      apply ih
      rw [List.any_cons] at h
      have hbe : (q.1 == k) = false := by simp [hq]
      rw [hbe, Bool.false_or] at h
      exact h

theorem lookupField_map_ne (k k2 : String) (v : GoValue) (h : ¬ k = k2) :
    ∀ m : LogFields,
      lookupField (m.map (fun q => if q.1 = k then (k, v) else q)) k2
        = lookupField m k2 := by
  intro m
  induction m with
  | nil => rfl
  | cons q tail ih =>
    by_cases hq : q.1 = k
    · rw [List.map_cons, if_pos hq]
      have hq2 : ¬ q.1 = k2 := fun e => h (by rw [← hq]; exact e)
      simp only [lookupField]
      rw [if_neg h, if_neg hq2, ih]
    · rw [List.map_cons, if_neg hq]
      simp only [lookupField]
      rw [ih]

theorem lookupField_append_single_self (k : String) (v : GoValue) :
    ∀ m : LogFields, m.any (fun q => q.1 == k) = false →
      lookupField (m ++ [(k, v)]) k = some v := by
  intro m
  induction m with
  | nil => intro _; simp [lookupField]
  | cons q tail ih =>
    intro h
    rw [List.any_cons, Bool.or_eq_false_iff] at h
    have hne : ¬ q.1 = k := by simpa using h.1
    rw [List.cons_append]
    simp only [lookupField]
    rw [if_neg hne, ih h.2]

theorem lookupField_append_single_ne (k k2 : String) (v : GoValue)
    (h : ¬ k = k2) :
    ∀ m : LogFields, lookupField (m ++ [(k, v)]) k2 = lookupField m k2 := by
  intro m
  induction m with
  | nil => simp [lookupField, h]
  | cons q tail ih =>
    rw [List.cons_append]
    simp only [lookupField]
    rw [ih]

theorem lookupField_insertField_self (m : LogFields) (k : String)
    (v : GoValue) : lookupField (insertField m k v) k = some v := by
  unfold insertField
  by_cases hany : m.any (fun q => q.1 == k)
  · rw [if_pos hany]
    exact lookupField_map_self k v m hany
  · rw [if_neg hany]
    refine lookupField_append_single_self k v m ?_
    simp only [Bool.not_eq_true] at hany
    exact hany

theorem lookupField_insertField_ne (m : LogFields) {k k2 : String}
    (h : k2 ≠ k) (v : GoValue) :
    lookupField (insertField m k v) k2 = lookupField m k2 := by
  have hk2 : ¬ k = k2 := fun e => h e.symm
  unfold insertField
  by_cases hany : m.any (fun q => q.1 == k)
  · rw [if_pos hany]
    exact lookupField_map_ne k k2 v hk2 m
  · rw [if_neg hany]
    exact lookupField_append_single_ne k k2 v hk2 m

theorem lookupField_eq_none_of_not_mem {m : LogFields} {k : String}
    (h : k ∉ m.map Prod.fst) : lookupField m k = none := by
  induction m with
  | nil => rfl
  | cons p rest ih =>
    rw [List.map_cons, List.mem_cons] at h
    push_neg at h
    simp only [lookupField]
    rw [if_neg (fun e => h.1 e.symm), ih h.2]

theorem lookupField_mergeInto_of_none (src : LogFields) {k : String} :
    ∀ dst : LogFields, lookupField src k = none →
      lookupField (mergeInto dst src) k = lookupField dst k := by
  induction src with
  | nil => intro dst h; rfl
  | cons q rest ih =>
    intro dst h
    by_cases hq : q.1 = k
    · simp [lookupField, hq] at h
    · simp only [lookupField, if_neg hq] at h
      show lookupField (mergeInto (insertField dst q.1 q.2) rest) k = _
      rw [ih _ h, lookupField_insertField_ne _ (fun e => hq e.symm)]

theorem lookupField_mergeInto_of_some (src : LogFields) {k : String}
    {v : GoValue} :
    ∀ dst : LogFields, (src.map Prod.fst).Nodup → lookupField src k = some v →
      lookupField (mergeInto dst src) k = some v := by
  induction src with
  | nil => intro dst _ h; simp [lookupField] at h
  | cons q rest ih =>
    intro dst hnd h
    rw [List.map_cons, List.nodup_cons] at hnd
    by_cases hq : q.1 = k
    · simp only [lookupField, if_pos hq, Option.some.injEq] at h
      have hrest : lookupField rest k = none :=
        lookupField_eq_none_of_not_mem (by rw [← hq]; exact hnd.1)
      show lookupField (mergeInto (insertField dst q.1 q.2) rest) k = _
      rw [lookupField_mergeInto_of_none rest _ hrest, hq,
        lookupField_insertField_self, h]
    · simp only [lookupField, if_neg hq] at h
      exact ih _ hnd.2 h

theorem deleteKey_cons (p : String × GoValue) (rest : LogFields) (k : String) :
    deleteKey (p :: rest) k
      = if p.1 = k then deleteKey rest k else p :: deleteKey rest k := by
  by_cases hp : p.1 = k <;> simp [deleteKey, List.filter_cons, hp]

theorem lookupField_deleteKey_ne (m : LogFields) {k k2 : String}
    (h : k2 ≠ k) : lookupField (deleteKey m k) k2 = lookupField m k2 := by
  induction m with
  | nil => rfl
  | cons p rest ih =>
    rw [deleteKey_cons]
    by_cases hp : p.1 = k
    · have hp2 : ¬ p.1 = k2 := fun e => h (by rw [← e, hp])
      rw [if_pos hp, ih]
      simp [lookupField, hp2]
    · rw [if_neg hp]
      by_cases hp2 : p.1 = k2 <;> simp [lookupField, hp2, ih]

theorem deleteKey_of_lookup_none (m : LogFields) (k : String)
    (h : lookupField m k = none) : deleteKey m k = m := by
  induction m with
  | nil => rfl
  | cons p rest ih =>
    rw [deleteKey_cons]
    by_cases hp : p.1 = k
    · exfalso
      simp [lookupField, hp] at h
    · simp [lookupField, hp] at h
      rw [if_neg hp, ih h]

theorem mem_map_fst_of_lookup {m : LogFields} {k : String} {v : GoValue}
    (h : lookupField m k = some v) : k ∈ m.map Prod.fst := by
  induction m with
  | nil => simp [lookupField] at h
  | cons p rest ih =>
    by_cases hp : p.1 = k
    · rw [List.map_cons, ← hp]
      exact List.mem_cons_self p.1 (rest.map Prod.fst)
    · simp [lookupField, hp] at h
      exact List.mem_cons_of_mem p.1 (ih h)

theorem delete3_eq_filter (l : LogFields) :
    deleteKey (deleteKey (deleteKey l "time") "level") "msg"
      = l.filter (fun p => !(isReservedKey p.1)) := by
  unfold deleteKey
  rw [List.filter_filter, List.filter_filter]
  apply List.filter_congr
  intro p _
  by_cases h1 : p.1 = "time" <;> by_cases h2 : p.1 = "level" <;>
    by_cases h3 : p.1 = "msg" <;> simp [h1, h2, h3, isReservedKey]

theorem map_fst_filter_key (l : LogFields) (q : String → Bool) :
    (l.filter (fun p => q p.1)).map Prod.fst = (l.map Prod.fst).filter q := by
  induction l with
  | nil => rfl
  | cons p rest ih =>
    by_cases h : q p.1 <;> simp [List.filter_cons, h, ih]

theorem map_fst_filter_reserved (l : LogFields) :
    (l.filter (fun p => !(isReservedKey p.1))).map Prod.fst
      = (l.map Prod.fst).filter (fun k => !(isReservedKey k)) :=
  map_fst_filter_key l (fun k => !(isReservedKey k))

theorem marshalData_eq (l : LogFields) :
    marshalData l =
      (((lookupField l "time").map (fun v => ("time", v))).toList ++
       ((lookupField l "level").map (fun v => ("level", v))).toList ++
       ((lookupField l "msg").map (fun v => ("msg", v))).toList ++
       l.filter (fun p => !(isReservedKey p.1)),
       l.filter (fun p => !(isReservedKey p.1))) := by
  have eTL : ∀ m : LogFields,
      lookupField (deleteKey m "time") "level" = lookupField m "level" :=
    fun m => lookupField_deleteKey_ne m (by decide)
  have eTM : ∀ m : LogFields,
      lookupField (deleteKey m "time") "msg" = lookupField m "msg" :=
    fun m => lookupField_deleteKey_ne m (by decide)
  have eLM : ∀ m : LogFields,
      lookupField (deleteKey m "level") "msg" = lookupField m "msg" :=
    fun m => lookupField_deleteKey_ne m (by decide)
  rw [← delete3_eq_filter]
  rcases h1 : lookupField l "time" with _ | v1 <;>
    rcases h2 : lookupField l "level" with _ | v2 <;>
      rcases h3 : lookupField l "msg" with _ | v3 <;>
        simp [marshalData, extractStep, h1, h2, h3, eTL, eTM, eLM,
          deleteKey_of_lookup_none, Option.toList]

/-!
The claims.
-/

/-- C1: Severity gate, ordered-levels variant. `logger.output` writes its
line iff the configured threshold is numerically at least the candidate
level (lower numeric value = higher severity); with the threshold at the
most restrictive value `LevelFatal`, Debug/Info/Warning/Error emits are
suppressed while a Fatal emit still writes its line. -/
theorem c1_severity_gate (l : Logger) (L : Level) (txt : String) :
    ((logger.output l L txt).2 = some txt ↔ L.toNat ≤ l.level.toNat) ∧
    (l.level = Level.fatal →
      (logger.output l .debug txt).2 = none ∧
      (logger.output l .info txt).2 = none ∧
      (logger.output l .waring txt).2 = none ∧
      (logger.output l .error txt).2 = none ∧
      (logger.output l .fatal txt).2 = some txt) := by
  constructor
  · cases h : l.level <;> cases L <;>
      simp [logger.output, Level.toNat, h]
  · intro h
    simp [logger.output, Level.toNat, h]

/-- Witness for C1 at a concrete logger whose threshold is `LevelFatal`. -/
theorem c1_severity_gate_witness :
    (logger.output ⟨fun _ _ _ m => m, .fatal, 0, []⟩ .debug "x").2 = none ∧
    (logger.output ⟨fun _ _ _ m => m, .fatal, 0, []⟩ .info "x").2 = none ∧
    (logger.output ⟨fun _ _ _ m => m, .fatal, 0, []⟩ .waring "x").2 = none ∧
    (logger.output ⟨fun _ _ _ m => m, .fatal, 0, []⟩ .error "x").2 = none ∧
    (logger.output ⟨fun _ _ _ m => m, .fatal, 0, []⟩ .fatal "x").2 = some "x" :=
  (c1_severity_gate ⟨fun _ _ _ m => m, .fatal, 0, []⟩ .debug "x").2 rfl

/-- C2: Field-set merge. `Add` with an empty operand returns the other
operand unchanged; and for every pair of operands (unique-keyed, as Go
maps are) and every key present in both, the merged map holds the value
from the second (additional) operand — in particular
`merge({"a":1}, {"a":2}) == {"a":2}`. -/
theorem c2_field_merge (F l newFields : LogFields) (k : String) (v : GoValue)
    (hnd : (newFields.map Prod.fst).Nodup)
    (hboth : (lookupField l k).isSome = true)
    (h2 : lookupField newFields k = some v) :
    LogFields.Add F [] = F ∧
    LogFields.Add [] F = F ∧
    lookupField (LogFields.Add l newFields) k = some v ∧
    LogFields.Add [("a", .vInt 1)] [("a", .vInt 2)] = [("a", .vInt 2)] := by
  refine ⟨?_, ?_, ?_, by decide⟩
  · cases F <;> simp [LogFields.Add]
  · simp [LogFields.Add]
  · cases l with
    | nil => simp [lookupField] at hboth
    | cons p rest =>
      cases newFields with
      | nil => simp [lookupField] at h2
      | cons q rest2 =>
        show lookupField
          (if (p :: rest : LogFields).length = 0 then q :: rest2
           else if (q :: rest2 : LogFields).length = 0 then p :: rest
           else mergeInto (mergeInto [] (p :: rest)) (q :: rest2)) k = some v
        rw [if_neg (by simp), if_neg (by simp)]
        exact lookupField_mergeInto_of_some (q :: rest2) _ hnd h2

/-- Witness for C2: operands `{"a":1,"b":3}` and `{"a":2}` share the key
`"a"`; the merged map holds the second operand's value `2`. -/
theorem c2_field_merge_witness :
    ((([("a", GoValue.vInt 2)] : LogFields).map Prod.fst).Nodup) ∧
    (lookupField [("a", GoValue.vInt 1), ("b", GoValue.vInt 3)] "a").isSome = true ∧
    lookupField [("a", GoValue.vInt 2)] "a" = some (GoValue.vInt 2) ∧
    lookupField
        (LogFields.Add [("a", GoValue.vInt 1), ("b", GoValue.vInt 3)]
          [("a", GoValue.vInt 2)]) "a"
      = some (GoValue.vInt 2) :=
  ⟨by decide, by decide, by decide,
   (c2_field_merge [] [("a", GoValue.vInt 1), ("b", GoValue.vInt 3)]
      [("a", GoValue.vInt 2)] "a" (GoValue.vInt 2)
      (by decide) (by decide) (by decide)).2.2.1⟩

/-- C3: One-shot field clearing. After every emit, at any severity and
whatever the gate decided, the transient field set is empty, and a
subsequent emit on the same logger produces the same output as on a
logger whose fields were never attached. -/
theorem c3_one_shot_clear (l : Logger) (s s2 : Level) (F : LogFields)
    (m1 m2 : String) :
    ((logger.emit l s m1).1).fields = [] ∧
    (logger.emit (logger.emit (logger.With l F) s m1).1 s2 m2).2 =
      (logger.emit (logger.clear l) s2 m2).2 :=
  ⟨rfl, rfl⟩

/-- C4, counterexample: the code quotes a rendered value only when it
contains a space character, not any whitespace — a value containing a tab
is left unquoted, contradicting the claimed whitespace-quoting rule. -/
theorem c4_counterexample :
    StdFormatter.Output 0 "info" [("k", .vStr "a\tb")] "m" = "k=a\tb m" ∧
    ("a\tb").data.any Char.isWhitespace = true ∧
    StdFormatter.Output 0 "info" [("k", .vStr "a\tb")] "m" ≠
      specStdOutputWhitespace 0 "info" [("k", .vStr "a\tb")] "m" :=
  ⟨by decide, by decide, by decide⟩

/-- C4, amended: `StdFormatter.Output` renders the fields as
lexicographically sorted `key=value ` pairs followed by the raw message,
wrapping a rendered value in double quotes exactly when it contains a
space character (rather than any whitespace); on the spec's example the
output is exactly `bool=true int=7 second=2 string=test check field`. -/
theorem c4_plain_formatter (flags : Nat) (lvl : String) (fields : LogFields)
    (msg : String) :
    StdFormatter.Output flags lvl fields msg
      = specStdOutputSpace flags lvl fields msg ∧
    StdFormatter.Output 0 "info"
        [("bool", .vBool true), ("int", .vInt 7), ("second", .vInt 2),
         ("string", .vStr "test")] "check field"
      = "bool=true int=7 second=2 string=test check field" := by
  constructor
  · unfold StdFormatter.Output StdFormatter.formatFields specStdOutputSpace
    rw [foldl_pairs_eq_joinAll, String.empty_append]
  · decide

/-- C5: JSON rendering reserved-key order. The serialized object's key
sequence is `time`, `level`, `msg` — each only when present, in that
relative order — followed by all remaining keys of the map. -/
theorem c5_json_reserved_key_order (l : LogFields) :
    marshalKeys l =
      ((if (lookupField l "time").isSome then ["time"] else []) ++
       (if (lookupField l "level").isSome then ["level"] else []) ++
       (if (lookupField l "msg").isSome then ["msg"] else [])) ++
      (l.map Prod.fst).filter (fun k => !(isReservedKey k)) := by
  unfold marshalKeys
  rw [marshalData_eq]
  rcases h1 : lookupField l "time" with _ | v1 <;>
    rcases h2 : lookupField l "level" with _ | v2 <;>
      rcases h3 : lookupField l "msg" with _ | v3 <;>
        simp [h1, h2, h3, map_fst_filter_reserved]

/-- C6: the code appends the Info system-log channel (`il`), not the
Debug one (`dl`), to the Debug destination list, so the constructed
Debug fan-out is `[explicit writer, Info syslog channel, stdout]` and the
acquired Debug syslog channel appears in no list. -/
theorem c6_sink_eval :
    buildSinks true true "app" (some (.file 0)) =
      ⟨[.file 0, .sysInfo "app", .stdout],
       [.file 0, .sysInfo "app", .stdout],
       [.file 0, .sysWarning "app", .stdout],
       [.file 0, .sysError "app", .stderr]⟩ ∧
    Writer.sysDebug "app" ∉ (buildSinks true true "app" (some (.file 0))).dLogs :=
  ⟨by decide, by decide⟩

/-- C7, counterexample: with the threshold at `LevelFatal`, a Panic emit
does not write its line — the severity gate (`l.level >= LevelPanic`)
suppresses it — yet the close and the panic still happen. -/
theorem c7_counterexample :
    loggerP.Panic
        ⟨fun fl lv f m => StdFormatter.Output fl lv f m, .fatal, 0, [], none⟩
        "boom"
      = [Event.closedResources, Event.panicked "boom"] := by
  decide

/-- C7, amended: a Fatal emit writes its formatted line, then closes the
owned resources, then exits with status 1 (its gate always passes since
`LevelFatal = 0`); a Panic emit closes the owned resources and panics
with the rendered message in that order, and writes its line first iff
the threshold admits Panic, i.e. iff the threshold is not `LevelFatal`. -/
theorem c7_termination_sequencing (l : Logger) (lp : LoggerP) (msg : String) :
    logger.Fatal l msg =
      [Event.wrote (l.formatter l.flags "fatal" l.fields msg),
       Event.closedResources, Event.exited 1] ∧
    (lp.level ≠ LevelP.fatal →
      loggerP.Panic lp msg =
        [Event.wrote ((loggerP.bindContextFields lp).formatter
            (loggerP.bindContextFields lp).flags "panic"
            (loggerP.bindContextFields lp).fields msg),
         Event.closedResources, Event.panicked msg]) ∧
    (lp.level = LevelP.fatal →
      loggerP.Panic lp msg = [Event.closedResources, Event.panicked msg]) := by
  refine ⟨?_, ?_, ?_⟩
  · simp [logger.Fatal, logger.output, Level.toNat, levelMap, Nat.zero_le]
  · intro h
    have hb : (loggerP.bindContextFields lp).level = lp.level := by
      unfold loggerP.bindContextFields loggerP.With
      cases lp.ctxFields <;> rfl
    cases hl : lp.level <;> try exact absurd hl h
    all_goals
      simp [loggerP.Panic, loggerP.output, LevelP.toNat, levelMapP, hb, hl]
  · intro h
    have hb : (loggerP.bindContextFields lp).level = lp.level := by
      unfold loggerP.bindContextFields loggerP.With
      cases lp.ctxFields <;> rfl
    simp [loggerP.Panic, loggerP.output, LevelP.toNat, levelMapP, hb, h]

/-- Witness for C7 on concrete loggers: a Fatal emit at threshold Debug
and a Panic emit at threshold Info. -/
theorem c7_termination_sequencing_witness :
    logger.Fatal ⟨fun _ _ _ m => m, .debug, 0, []⟩ "boom" =
      [Event.wrote "boom", Event.closedResources, Event.exited 1] ∧
    loggerP.Panic ⟨fun _ _ _ m => m, .info, 0, [], none⟩ "boom" =
      [Event.wrote "boom", Event.closedResources, Event.panicked "boom"] :=
  ⟨(c7_termination_sequencing ⟨fun _ _ _ m => m, .debug, 0, []⟩
      ⟨fun _ _ _ m => m, .info, 0, [], none⟩ "boom").1,
   (c7_termination_sequencing ⟨fun _ _ _ m => m, .debug, 0, []⟩
      ⟨fun _ _ _ m => m, .info, 0, [], none⟩ "boom").2.1 (by decide)⟩

/-- C8: `LogFields.MarshalJSON` mutates its receiver — the map it leaves
behind is the original minus every reserved key, so when any of `time`,
`level`, `msg` was present the key set afterwards differs from the one
passed in. -/
theorem c8_marshal_mutates_receiver (l : LogFields) :
    (LogFields.MarshalJSON l).2 = l.filter (fun p => !(isReservedKey p.1)) ∧
    (((lookupField l "time").isSome || (lookupField l "level").isSome ||
        (lookupField l "msg").isSome) = true →
      ((LogFields.MarshalJSON l).2).map Prod.fst ≠ l.map Prod.fst) := by
  have hsnd : (LogFields.MarshalJSON l).2
      = l.filter (fun p => !(isReservedKey p.1)) := by
    unfold LogFields.MarshalJSON
    rw [marshalData_eq]
  refine ⟨hsnd, ?_⟩
  intro h heq
  rw [hsnd, map_fst_filter_reserved] at heq
  simp only [Bool.or_eq_true] at h
  have : ∃ k : String, isReservedKey k = true ∧ k ∈ l.map Prod.fst := by
    rcases h with (h | h) | h <;> rw [Option.isSome_iff_exists] at h <;>
      obtain ⟨v, hv⟩ := h
    · exact ⟨"time", by decide, mem_map_fst_of_lookup hv⟩
    · exact ⟨"level", by decide, mem_map_fst_of_lookup hv⟩
    · exact ⟨"msg", by decide, mem_map_fst_of_lookup hv⟩
  obtain ⟨k, hres, hmem⟩ := this
  rw [← heq] at hmem
  have := List.of_mem_filter hmem
  rw [hres] at this
  exact absurd this (by decide)

/-- Witness for C8 on a map that contains the reserved key `time`. -/
theorem c8_marshal_mutates_receiver_witness :
    (((lookupField [("time", GoValue.vStr "t"), ("a", GoValue.vInt 1)] "time").isSome ||
       (lookupField [("time", GoValue.vStr "t"), ("a", GoValue.vInt 1)] "level").isSome ||
       (lookupField [("time", GoValue.vStr "t"), ("a", GoValue.vInt 1)] "msg").isSome) = true) ∧
    ((LogFields.MarshalJSON [("time", GoValue.vStr "t"), ("a", GoValue.vInt 1)]).2).map Prod.fst ≠
      [("time", GoValue.vStr "t"), ("a", GoValue.vInt 1)].map Prod.fst :=
  ⟨by decide,
   (c8_marshal_mutates_receiver [("time", GoValue.vStr "t"), ("a", GoValue.vInt 1)]).2 (by decide)⟩

/-- C9: `StdFormatter.Output` is deterministic and independent of its
flags and level-name arguments — the result depends only on the fields
and the message. -/
theorem c9_std_output_flag_level_independent (f1 f2 : Nat) (l1 l2 : String)
    (F : LogFields) (m : String) :
    StdFormatter.Output f1 l1 F m = StdFormatter.Output f2 l2 F m := rfl

/-- C10: when both operands are non-empty, `Add` allocates its result map
fresh (at a new heap index, distinct from both operands) and leaves every
existing heap cell — in particular both operands — unchanged. -/
theorem c10_add_fresh_no_mutation (heap : List LogFields) (i j : Nat)
    (hi : i < heap.length) (hj : j < heap.length)
    (hne1 : (heap.getD i []).length ≠ 0) (hne2 : (heap.getD j []).length ≠ 0) :
    (heapAdd heap i j).1
      = heap ++ [LogFields.Add (heap.getD i []) (heap.getD j [])] ∧
    (heapAdd heap i j).2 = heap.length ∧
    (heapAdd heap i j).2 ≠ i ∧
    (heapAdd heap i j).2 ≠ j ∧
    (heapAdd heap i j).1.getD i [] = heap.getD i [] ∧
    (heapAdd heap i j).1.getD j [] = heap.getD j [] ∧
    (heapAdd heap i j).1.getD (heapAdd heap i j).2 []
      = LogFields.Add (heap.getD i []) (heap.getD j []) := by
  have hadd : heapAdd heap i j
      = (heap ++ [LogFields.Add (heap.getD i []) (heap.getD j [])], heap.length) := by
    unfold heapAdd LogFields.Add
    rw [if_neg hne1, if_neg hne2, if_neg hne1, if_neg hne2]
  have hgi : (heap ++ [LogFields.Add (heap.getD i []) (heap.getD j [])]).getD i []
      = heap.getD i [] := by
    unfold List.getD
    rw [List.get?_append hi]
  have hgj : (heap ++ [LogFields.Add (heap.getD i []) (heap.getD j [])]).getD j []
      = heap.getD j [] := by
    unfold List.getD
    rw [List.get?_append hj]
  refine ⟨by rw [hadd], by rw [hadd], ?_, ?_, ?_, ?_, ?_⟩
  · rw [hadd]; exact fun e => absurd (e ▸ hi) (lt_irrefl _)
  · rw [hadd]; exact fun e => absurd (e ▸ hj) (lt_irrefl _)
  · rw [hadd]; exact hgi
  · rw [hadd]; exact hgj
  · rw [hadd]
    simp [List.getD_append_right]

/-- Witness for C10 on a two-cell heap of non-empty maps. -/
theorem c10_add_fresh_no_mutation_witness :
    (0 < ([[("a", GoValue.vInt 1)], [("b", GoValue.vInt 2)]] : List LogFields).length) ∧
    (1 < ([[("a", GoValue.vInt 1)], [("b", GoValue.vInt 2)]] : List LogFields).length) ∧
    (heapAdd [[("a", GoValue.vInt 1)], [("b", GoValue.vInt 2)]] 0 1).1
      = [[("a", GoValue.vInt 1)], [("b", GoValue.vInt 2)],
         [("a", GoValue.vInt 1), ("b", GoValue.vInt 2)]] ∧
    (heapAdd [[("a", GoValue.vInt 1)], [("b", GoValue.vInt 2)]] 0 1).2 = 2 :=
  ⟨by decide, by decide,
   by
    have h := (c10_add_fresh_no_mutation
      [[("a", GoValue.vInt 1)], [("b", GoValue.vInt 2)]] 0 1
      (by decide) (by decide) (by decide) (by decide)).1
    rw [h]; decide,
   (c10_add_fresh_no_mutation
      [[("a", GoValue.vInt 1)], [("b", GoValue.vInt 2)]] 0 1
      (by decide) (by decide) (by decide) (by decide)).2.1⟩

end LogSpec
